import Mathlib

/-!
Verification of the reifydb Python hello-world example scripts.

The repository supplies two straight-line example scripts
(`src/pkg/python/examples/hello-world/main.py` and
`src/pkg/python/reifydb/examples/hello-world/main.py`).  Each one

  * constructs `Embedded()` with no arguments,
  * submits a single query string through `db.tx(...)`,
  * prints `tabulate(r[0]['rows'], headers=r[0]['headers'])`.

The embedded database engine (`reifydb.Embedded`) and the `tabulate`
formatting helper are external libraries; the scripts treat them as
opaque calls that either return a value or raise.  We embed the
scripts as straight-line programs over an opaque `Runtime`
(the constructor, the engine's `tx` method and the formatter), using
`Option` for a call that raises, and record the externally visible
events (constructor call, `tx` call, `print` call) as a trace.
-/

/-- Dynamic Python-style values: the results handed back by the engine
are lists of dictionaries carrying rows and header labels. -/
inductive PyVal where
  | null : PyVal
  | int : Int → PyVal
  | str : String → PyVal
  | list : List PyVal → PyVal
  | dict : List (String × PyVal) → PyVal

/-- First-match lookup in a dictionary's entry list (Python dict keys are
unique, so first-match association-list lookup is faithful). -/
def lookupEntry : List (String × PyVal) → String → Option PyVal
  | [], _ => Option.none
  | (k, v) :: rest, key => if k = key then some v else lookupEntry rest key

/-- `v[i]` for a non-negative integer index: succeeds exactly when `v` is a
list with more than `i` elements; otherwise an `IndexError`/`TypeError`
is raised, modelled as `none`. -/
def listIndex : PyVal → Nat → Option PyVal
  | .list xs, i => xs[i]?
  | _, _ => Option.none

/-- `v[k]` for a string key: succeeds exactly when `v` is a dictionary
containing the key; otherwise a `KeyError`/`TypeError` is raised,
modelled as `none`. -/
def dictGet : PyVal → String → Option PyVal
  | .dict entries, k => lookupEntry entries k
  | _, _ => Option.none

/-- The embedded database client handle returned by `Embedded()`; its only
method used by the scripts is `tx`, which takes the query string and
either returns a result value or raises (`none`). -/
structure Engine where
  tx : String → Option PyVal

/-- The opaque external world a run executes against: the `Embedded`
constructor (given its argument list; may raise) and the `tabulate`
formatter (given the rows value and the headers value; may raise). -/
structure Runtime where
  mkEmbedded : List PyVal → Option Engine
  tabulate : PyVal → PyVal → Option String

/-- Externally visible events of a run: the constructor call with its
argument list, each `tx` call with its query string, and each `print`
call with the line written to standard output. -/
inductive Event where
  | constructCall : List PyVal → Event
  | txCall : String → Event
  | printCall : String → Event

/-- The argument expression `tabulate(r[0]['rows'], headers=r[0]['headers'])`
evaluated on the result `r`, exactly in Python's order: `r[0]` then
`['rows']`, then `r[0]` again, then `['headers']`, then the `tabulate`
call; the first step that raises aborts the whole expression. -/
def consumeResult (tab : PyVal → PyVal → Option String) (r : PyVal) :
    Option String :=
  match listIndex r 0 with
  | Option.none => Option.none
  | some elemA =>
    match dictGet elemA "rows" with
    | Option.none => Option.none
    | some rows =>
      match listIndex r 0 with
      | Option.none => Option.none
      | some elemB =>
        match dictGet elemB "headers" with
        | Option.none => Option.none
        | some headers => tab rows headers

/-- One run of a hello-world script with query string `query`:
`db = Embedded()`, `r = db.tx(query)`,
`print(tabulate(r[0]['rows'], headers=r[0]['headers']))`.
Returns the event trace together with the script's outcome:
`some s` when it completed normally after printing `s`, `none` when an
exception propagated uncaught and the process terminated. -/
def runScript (rt : Runtime) (query : String) : List Event × Option String :=
  match rt.mkEmbedded [] with
  | Option.none => ([Event.constructCall []], Option.none)
  | some db =>
    match db.tx query with
    | Option.none => ([Event.constructCall [], Event.txCall query], Option.none)
    | some r =>
      match consumeResult rt.tabulate r with
      | Option.none => ([Event.constructCall [], Event.txCall query], Option.none)
      | some s =>
        ([Event.constructCall [], Event.txCall query, Event.printCall s], some s)

/-- The lines a trace wrote to standard output (each `print` call writes
its line followed by a newline). -/
def stdoutOf (evs : List Event) : List String :=
  evs.filterMap fun e =>
    match e with
    | Event.printCall s => some s
    | _ => Option.none

/-- The query strings submitted through `tx` during a trace, in order. -/
def txQueries (evs : List Event) : List String :=
  evs.filterMap fun e =>
    match e with
    | Event.txCall q => some q
    | _ => Option.none

/-- The argument lists of the `Embedded(...)` constructor calls of a trace. -/
def constructArgs (evs : List Event) : List (List PyVal)  :=
  evs.filterMap fun e =>
    match e with
    | Event.constructCall args => some args
    | _ => Option.none

/-- One supplied example script: its path under `src/`, the query string
it submits, and its length in source lines. -/
structure ScriptFile where
  path : String
  query : String
  numLines : Nat

/-- `src/pkg/python/examples/hello-world/main.py`: 7 lines, submits
`select 1, 1 + 4`. -/
def examplesScript : ScriptFile :=
  { path := "src/pkg/python/examples/hello-world/main.py"
    query := "select 1, 1 + 4"
    numLines := 7 }

/-- `src/pkg/python/reifydb/examples/hello-world/main.py`: 10 lines
(a licence header, imports and the same three statements), submits
`map 1, 1 + 4`. -/
def reifydbScript : ScriptFile :=
  { path := "src/pkg/python/reifydb/examples/hello-world/main.py"
    query := "map 1, 1 + 4"
    numLines := 10 }

/-- The example scripts supplied under `src/`. -/
def suppliedScripts : List ScriptFile := [examplesScript, reifydbScript]

/-- The argument part both query strings share after their leading
keyword (`select` resp. `map`). -/
def commonQueryArgs : String := "1, 1 + 4"

/-- Does the character list `h` start with the character list `n`? -/
def beginsWith : List Char → List Char → Bool
  | [], _ => true
  | _ :: _, [] => false
  | a :: as, b :: bs => a == b && beginsWith as bs

/-- Does the character list `n` occur contiguously inside `h`? -/
def containsChars : List Char → List Char → Bool
  | n, [] => beginsWith n []
  | n, c :: rest => beginsWith n (c :: rest) || containsChars n rest

/-- `a` occurs as a contiguous substring of `b`. -/
def containsStr (a b : String) : Prop := containsChars a.data b.data = true

/-- Concatenate strings with a separator between consecutive elements. -/
def joinSep (sep : String) : List String → String
  | [] => ""
  | [x] => x
  | x :: y :: rest => x ++ sep ++ joinSep sep (y :: rest)

/-- Modelled from the spec: how one table cell value is written as text
by the external formatter (the `tabulate` library is not part of this
repository). Integers print as decimal numerals, strings as themselves. -/
def renderCell : PyVal → String
  | .null => "None"
  | .int n => toString n
  | .str s => s
  | .list _ => "<list>"
  | .dict _ => "<dict>"

/-- A table row must itself be a sequence of cells; anything else makes
the formatter raise (`none`). -/
def renderRow : PyVal → Option String
  | .list cells => some (joinSep "  " (cells.map renderCell))
  | _ => Option.none

/-- Render each row of a row sequence, failing if any row is malformed. -/
def renderRows : List PyVal → Option (List String)
  | [] => some []
  | r :: rest =>
    match renderRow r, renderRows rest with
    | some s, some ss => some (s :: ss)
    | _, _ => Option.none

/-- Modelled from the spec: the third-party `tabulate` formatting helper
is not part of this repository; the spec requires the script to
"render those two fields as a formatted text table" whose output
"contains the header labels and the single row of computed values".
Modelled as a plain text table: the header labels on one line, a
separator line, then one line per row, cells separated by two spaces;
a rows or headers argument that is not a sequence makes the call raise. -/
def tabulateModel (rows headers : PyVal) : Option String :=
  match rows, headers with
  | .list rs, .list hs =>
    match renderRows rs with
    | some rlines =>
      some (joinSep "\n" (joinSep "  " (hs.map renderCell) :: "-----" :: rlines))
    | Option.none => Option.none
  | _, _ => Option.none

/-- The table text `tabulateModel` produces for one row of cells `cells`
under header labels `hvs`. -/
def mkTable (cells hvs : List PyVal) : String :=
  joinSep "\n"
    [joinSep "  " (hvs.map renderCell), "-----", joinSep "  " (cells.map renderCell)]

/-- The single row of computed values the engine returns for the example
query (the columns `1` and `1 + 4`). -/
def sampleRowCells : List PyVal := [PyVal.int 1, PyVal.int 5]

/-- The header labels of the example query's two columns. -/
def sampleHeaderVals : List PyVal := [PyVal.str "1", PyVal.str "1 + 4"]

/-- A well-formed first response element: a dictionary with a `rows`
entry and a `headers` entry. -/
def sampleElem : PyVal :=
  PyVal.dict
    [("rows", PyVal.list [PyVal.list sampleRowCells]),
     ("headers", PyVal.list sampleHeaderVals)]

/-- A well-formed engine result: a one-element sequence. -/
def sampleResult : PyVal := PyVal.list [sampleElem]

/-- Like `sampleElem` but with an extra dictionary entry the script
never reads. -/
def sampleElemExtra : PyVal :=
  PyVal.dict
    [("rows", PyVal.list [PyVal.list sampleRowCells]),
     ("headers", PyVal.list sampleHeaderVals),
     ("stats", PyVal.int 7)]

/-- Like `sampleResult` but with an extra first-element entry and an
extra trailing response element, neither of which the script reads. -/
def sampleResultExtra : PyVal := PyVal.list [sampleElemExtra, PyVal.int 99]

/-- A deterministic engine answering every query with `sampleResult`. -/
def sampleEngine : Engine := { tx := fun _ => some sampleResult }

/-- A run environment built from `sampleEngine` and the modelled formatter. -/
def sampleRuntime : Runtime :=
  { mkEmbedded := fun _ => some sampleEngine, tabulate := tabulateModel }

/-- A second, separately constructed engine with the same behaviour as
`sampleEngine`. -/
def sampleEngineB : Engine := { tx := fun _ => some sampleResult }

/-- A second run environment, behaviourally equal to `sampleRuntime`. -/
def sampleRuntimeB : Runtime :=
  { mkEmbedded := fun _ => some sampleEngineB, tabulate := tabulateModel }

/-- An engine answering every query with `sampleResultExtra`. -/
def sampleEngineExtra : Engine := { tx := fun _ => some sampleResultExtra }

/-- A run environment built from `sampleEngineExtra`. -/
def sampleRuntimeExtra : Runtime :=
  { mkEmbedded := fun _ => some sampleEngineExtra, tabulate := tabulateModel }

/-- An engine whose `tx` raises on every query. -/
def failTxEngine : Engine := { tx := fun _ => Option.none }

/-- A run environment whose `tx` call always raises. -/
def failTxRuntime : Runtime :=
  { mkEmbedded := fun _ => some failTxEngine, tabulate := tabulateModel }

/-- An engine answering every query with an empty response sequence. -/
def emptyResultEngine : Engine := { tx := fun _ => some (PyVal.list []) }

/-- A run environment whose engine returns an empty response sequence,
so the unguarded `r[0]` access fails. -/
def emptyResultRuntime : Runtime :=
  { mkEmbedded := fun _ => some emptyResultEngine, tabulate := tabulateModel }

theorem beginsWith_of_beginsWith {n h : List Char} (t : List Char)
    (hb : beginsWith n h = true) : beginsWith n (h ++ t) = true := by
  induction n generalizing h with
  | nil => rfl
  | cons a as ih =>
    cases h with
    | nil => simp [beginsWith] at hb
    | cons b bs =>
      simp only [beginsWith, Bool.and_eq_true] at hb ⊢
      exact ⟨hb.1, ih hb.2⟩

theorem beginsWith_refl (n : List Char) : beginsWith n n = true := by
  induction n with
  | nil => rfl
  | cons a as ih => simp [beginsWith, ih]

theorem containsChars_of_beginsWith {n h : List Char}
    (hb : beginsWith n h = true) : containsChars n h = true := by
  cases h with
  | nil => exact hb
  | cons c rest => simp [containsChars, hb]

theorem containsChars_append_left {n h : List Char} (t : List Char)
    (hc : containsChars n h = true) : containsChars n (h ++ t) = true := by
  induction h with
  | nil => exact containsChars_of_beginsWith (beginsWith_of_beginsWith t hc)
  | cons c rest ih =>
    simp only [containsChars, Bool.or_eq_true] at hc
    rcases hc with hb | hr
    · exact containsChars_of_beginsWith (beginsWith_of_beginsWith t hb)
    · simp only [List.cons_append, containsChars, Bool.or_eq_true]
      exact Or.inr (ih hr)

theorem containsChars_append_right {n t : List Char} (h : List Char)
    (hc : containsChars n t = true) : containsChars n (h ++ t) = true := by
  induction h with
  | nil => exact hc
  | cons c rest ih =>
    simp only [List.cons_append, containsChars, Bool.or_eq_true]
    exact Or.inr ih

theorem containsChars_self (n : List Char) : containsChars n n = true :=
  containsChars_of_beginsWith (beginsWith_refl n)

theorem containsStr_refl (s : String) : containsStr s s :=
  containsChars_self s.data

theorem containsStr_append_left {a b : String} (c : String)
    (h : containsStr a b) : containsStr a (b ++ c) := by
  unfold containsStr at h ⊢
  rw [String.data_append]
  exact containsChars_append_left c.data h

theorem containsStr_append_right {a c : String} (b : String)
    (h : containsStr a c) : containsStr a (b ++ c) := by
  unfold containsStr at h ⊢
  rw [String.data_append]
  exact containsChars_append_right b.data h

theorem beginsWith_iff (n h : List Char) :
    beginsWith n h = true ↔ ∃ t, h = n ++ t := by
  induction n generalizing h with
  | nil => simp [beginsWith]
  | cons a as ih =>
    cases h with
    | nil =>
      simp only [beginsWith, List.cons_append]
      constructor
      · intro hfalse; cases hfalse
      · rintro ⟨t, ht⟩; cases ht
    | cons b bs =>
      simp only [beginsWith, Bool.and_eq_true, beq_iff_eq, ih, List.cons_append]
      constructor
      · rintro ⟨rfl, t, rfl⟩; exact ⟨t, rfl⟩
      · rintro ⟨t, ht⟩
        injection ht with h1 h2
        exact ⟨h1.symm, t, h2⟩

theorem containsChars_iff (n h : List Char) :
    containsChars n h = true ↔ ∃ p t, h = p ++ (n ++ t) := by
  induction h with
  | nil =>
    simp only [containsChars, beginsWith_iff]
    constructor
    · rintro ⟨t, ht⟩; exact ⟨[], t, ht⟩
    · rintro ⟨p, t, ht⟩
      rcases List.append_eq_nil.mp ht.symm with ⟨rfl, h2⟩
      exact ⟨t, ht⟩
  | cons c rest ih =>
    simp only [containsChars, Bool.or_eq_true, beginsWith_iff, ih]
    constructor
    · rintro (⟨t, ht⟩ | ⟨p, t, ht⟩)
      · exact ⟨[], t, by simp [ht]⟩
      · exact ⟨c :: p, t, by simp [ht]⟩
    · rintro ⟨p, t, ht⟩
      cases p with
      | nil => exact Or.inl ⟨t, by simpa using ht⟩
      | cons d ps =>
        injection ht with h1 h2
        exact Or.inr ⟨ps, t, h2⟩

theorem containsStr_trans {a b c : String}
    (h1 : containsStr a b) (h2 : containsStr b c) : containsStr a c := by
  unfold containsStr at h1 h2 ⊢
  rw [containsChars_iff] at h1 h2 ⊢
  obtain ⟨p, t, hb⟩ := h1
  obtain ⟨q, u, hc⟩ := h2
  exact ⟨q ++ p, t ++ u, by simp [hc, hb, List.append_assoc]⟩

/-- Drop every entry of a response-element dictionary other than its
`rows` and `headers` entries; other value shapes are left unchanged. -/
def restrictElem : PyVal → PyVal
  | .dict entries =>
    .dict (entries.filter fun p => p.1 == "rows" || p.1 == "headers")
  | v => v

/-- Keep of an engine result only what the scripts read: the first
response element, restricted to its `rows` and `headers` entries. -/
def restrictResult (r : PyVal) : PyVal :=
  match listIndex r 0 with
  | Option.none => PyVal.list []
  | some e => PyVal.list [restrictElem e]

theorem lookupEntry_filter_keys (l : List (String × PyVal)) (key : String)
    (hk : key = "rows" ∨ key = "headers") :
    lookupEntry (l.filter fun p => p.1 == "rows" || p.1 == "headers") key =
      lookupEntry l key := by
  induction l with
  | nil => rfl
  | cons kv rest ih =>
    obtain ⟨k, v⟩ := kv
    by_cases hkey : k = key
    · subst hkey
      have hkeep : (k == "rows" || k == "headers") = true := by
        rcases hk with rfl | rfl <;> simp
      simp [List.filter_cons, hkeep, lookupEntry]
    · by_cases hkeep : (k == "rows" || k == "headers") = true
      · simp [List.filter_cons, hkeep, lookupEntry, hkey, ih]
      · simp [List.filter_cons, hkeep, lookupEntry, hkey, ih]

theorem dictGet_restrictElem (e : PyVal) (key : String)
    (hk : key = "rows" ∨ key = "headers") :
    dictGet (restrictElem e) key = dictGet e key := by
  cases e with
  | dict entries => simpa [restrictElem, dictGet] using
      lookupEntry_filter_keys entries key hk
  | null => rfl
  | int n => rfl
  | str s => rfl
  | list xs => rfl

theorem listIndex_zero_eq_some {r : PyVal} {x : PyVal} :
    listIndex r 0 = some x ↔ ∃ rest, r = PyVal.list (x :: rest) := by
  cases r with
  | list xs => cases xs <;> simp [listIndex]
  | null => simp [listIndex]
  | int n => simp [listIndex]
  | str s => simp [listIndex]
  | dict l => simp [listIndex]

theorem consumeResult_eq_some {tab : PyVal → PyVal → Option String}
    {r : PyVal} {s : String} (h : consumeResult tab r = some s) :
    ∃ elem rows headers, listIndex r 0 = some elem
      ∧ dictGet elem "rows" = some rows
      ∧ dictGet elem "headers" = some headers
      ∧ tab rows headers = some s := by
  unfold consumeResult at h
  cases h0 : listIndex r 0 with
  | none => simp [h0] at h
  | some elem =>
    cases h1 : dictGet elem "rows" with
    | none => simp [h0, h1] at h
    | some rows =>
      cases h2 : dictGet elem "headers" with
      | none => simp [h0, h1, h2] at h
      | some headers =>
        simp only [h0, h1, h2] at h
        exact ⟨elem, rows, headers, rfl, h1, h2, h⟩

theorem consumeResult_congr (tab : PyVal → PyVal → Option String)
    {r1 r2 e1 e2 : PyVal}
    (h1 : listIndex r1 0 = some e1) (h2 : listIndex r2 0 = some e2)
    (hrows : dictGet e1 "rows" = dictGet e2 "rows")
    (hhead : dictGet e1 "headers" = dictGet e2 "headers") :
    consumeResult tab r1 = consumeResult tab r2 := by
  simp [consumeResult, h1, h2, hrows, hhead]

theorem runScript_snd {rt : Runtime} {q : String} {db : Engine} {r : PyVal}
    (hc : rt.mkEmbedded [] = some db) (htx : db.tx q = some r) :
    (runScript rt q).2 = consumeResult rt.tabulate r := by
  simp only [runScript, hc, htx]
  cases consumeResult rt.tabulate r <;> rfl

theorem listIndex_nil : listIndex (PyVal.list []) 0 = Option.none := rfl

theorem listIndex_singleton (x : PyVal) :
    listIndex (PyVal.list [x]) 0 = some x := rfl

theorem consumeResult_restrict (tab : PyVal → PyVal → Option String)
    (r : PyVal) : consumeResult tab r = consumeResult tab (restrictResult r) := by
  cases h0 : listIndex r 0 with
  | none =>
    have hr : restrictResult r = PyVal.list [] := by
      simp only [restrictResult, h0]
    rw [hr]
    simp only [consumeResult, h0, listIndex_nil]
  | some e =>
    have hr : restrictResult r = PyVal.list [restrictElem e] := by
      simp only [restrictResult, h0]
    rw [hr]
    simp only [consumeResult, h0, listIndex_singleton,
      dictGet_restrictElem e "rows" (Or.inl rfl),
      dictGet_restrictElem e "headers" (Or.inr rfl)]

theorem stdoutOf_runScript (rt : Runtime) (q : String) :
    stdoutOf (runScript rt q).1 = (runScript rt q).2.toList := by
  cases hdb : rt.mkEmbedded [] with
  | none => simp [runScript, hdb, stdoutOf]
  | some db =>
    cases htx : db.tx q with
    | none => simp [runScript, hdb, htx, stdoutOf]
    | some r =>
      cases hres : consumeResult rt.tabulate r with
      | none => simp [runScript, hdb, htx, hres, stdoutOf]
      | some s => simp [runScript, hdb, htx, hres, stdoutOf]

theorem containsStr_joinSep (sep : String) {s : String} {l : List String}
    (hmem : s ∈ l) : containsStr s (joinSep sep l) := by
  induction l with
  | nil => cases hmem
  | cons x rest ih =>
    cases rest with
    | nil =>
      rcases List.mem_singleton.mp hmem with rfl
      exact containsStr_refl s
    | cons y ys =>
      rcases List.mem_cons.mp hmem with rfl | hmem2
      · show containsStr s (s ++ sep ++ joinSep sep (y :: ys))
        exact containsStr_append_left _ (containsStr_append_left _ (containsStr_refl s))
      · show containsStr s (x ++ sep ++ joinSep sep (y :: ys))
        exact containsStr_append_right _ (ih hmem2)

/-- C2: each script reads only the first response element and, of it,
only the `rows` and `headers` entries: its outcome on any engine result
`r` equals its outcome on `r` stripped to the first element's `rows`
and `headers` entries, so no other element or field is ever accessed. -/
theorem c2_reads_only_first_rows_headers (rt : Runtime) (q : String)
    (db : Engine) (r : PyVal)
    (hc : rt.mkEmbedded [] = some db) (htx : db.tx q = some r) :
    (runScript rt q).2 = consumeResult rt.tabulate (restrictResult r) := by
  rw [runScript_snd hc htx]
  exact consumeResult_restrict rt.tabulate r

/-- Witness for C2 at a concrete run whose engine result carries an
extra response element and an extra first-element entry. -/
theorem c2_witness :
    (runScript sampleRuntimeExtra "select 1, 1 + 4").2 =
      consumeResult tabulateModel (restrictResult sampleResultExtra) :=
  c2_reads_only_first_rows_headers sampleRuntimeExtra "select 1, 1 + 4"
    sampleEngineExtra sampleResultExtra rfl rfl

/-- C3: in every run whose client construction succeeds, the script
submits exactly one query string through `tx` — the handle is never
used a second time — and for the two supplied scripts that single
query is `select 1, 1 + 4` resp. `map 1, 1 + 4`, a projection/selection
over the literals `1` and `1 + 4`. -/
theorem c3_single_tx (rt : Runtime)
    (hc : (rt.mkEmbedded []).isSome = true) :
    (∀ q, txQueries (runScript rt q).1 = [q])
    ∧ txQueries (runScript rt examplesScript.query).1 = ["select 1, 1 + 4"]
    ∧ txQueries (runScript rt reifydbScript.query).1 = ["map 1, 1 + 4"] := by
  obtain ⟨db, hdb⟩ := Option.isSome_iff_exists.mp hc
  have hone : ∀ q, txQueries (runScript rt q).1 = [q] := by
    intro q
    cases htx : db.tx q with
    | none => simp [runScript, hdb, htx, txQueries]
    | some r =>
      cases hres : consumeResult rt.tabulate r with
      | none => simp [runScript, hdb, htx, hres, txQueries]
      | some s => simp [runScript, hdb, htx, hres, txQueries]
  exact ⟨hone, hone examplesScript.query, hone reifydbScript.query⟩

/-- Witness for C3 at a concrete run environment. -/
theorem c3_witness :
    (∀ q, txQueries (runScript sampleRuntime q).1 = [q])
    ∧ txQueries (runScript sampleRuntime examplesScript.query).1 =
        ["select 1, 1 + 4"]
    ∧ txQueries (runScript sampleRuntime reifydbScript.query).1 =
        ["map 1, 1 + 4"] :=
  c3_single_tx sampleRuntime rfl

/-- C4: every run performs exactly one `Embedded(...)` constructor call,
and its argument list is empty. -/
theorem c4_one_construction (rt : Runtime) (q : String) :
    constructArgs (runScript rt q).1 = [[]] := by
  cases hdb : rt.mkEmbedded [] with
  | none => simp [runScript, hdb, constructArgs]
  | some db =>
    cases htx : db.tx q with
    | none => simp [runScript, hdb, htx, constructArgs]
    | some r =>
      cases hres : consumeResult rt.tabulate r with
      | none => simp [runScript, hdb, htx, hres, constructArgs]
      | some s => simp [runScript, hdb, htx, hres, constructArgs]

/-- C5: the scripts contain no handler: when the `tx` call raises, and
likewise when the `tabulate` call raises, the error propagates uncaught
(outcome `none`) and the run terminates having written nothing to
standard output. -/
theorem c5_errors_propagate (rt : Runtime) (q : String) (db : Engine)
    (hc : rt.mkEmbedded [] = some db) :
    (db.tx q = Option.none →
      (runScript rt q).2 = Option.none ∧ stdoutOf (runScript rt q).1 = [])
    ∧ (∀ r x rest rows headers, db.tx q = some r →
        r = PyVal.list (x :: rest) →
        dictGet x "rows" = some rows → dictGet x "headers" = some headers →
        rt.tabulate rows headers = Option.none →
        (runScript rt q).2 = Option.none ∧ stdoutOf (runScript rt q).1 = []) := by
  constructor
  · intro htx
    constructor
    · simp [runScript, hc, htx]
    · rw [stdoutOf_runScript]
      simp [runScript, hc, htx]
  · intro r x rest rows headers htx hr hrows hheaders htab
    subst hr
    have hcons : consumeResult rt.tabulate (PyVal.list (x :: rest)) =
        Option.none := by
      simp [consumeResult, listIndex, hrows, hheaders, htab]
    constructor
    · rw [runScript_snd hc htx, hcons]
    · rw [stdoutOf_runScript, runScript_snd hc htx, hcons]
      rfl

/-- Witness for C5 at a run whose `tx` call raises. -/
theorem c5_witness :
    (runScript failTxRuntime "select 1, 1 + 4").2 = Option.none
    ∧ stdoutOf (runScript failTxRuntime "select 1, 1 + 4").1 = [] :=
  (c5_errors_propagate failTxRuntime "select 1, 1 + 4" failTxEngine rfl).1 rfl

/-- C8: the result accesses are unguarded: a run whose `tx` call
returned `r` completes normally only if `r` is a non-empty sequence
whose first element carries both a `rows` and a `headers` entry, and
every `r` violating that precondition makes the run fail (an uncaught
index or key lookup error, outcome `none`). -/
theorem c8_unguarded_access (rt : Runtime) (q : String) (db : Engine)
    (r : PyVal) (hc : rt.mkEmbedded [] = some db) (htx : db.tx q = some r) :
    ((runScript rt q).2.isSome = true →
      ∃ x rest rows headers, r = PyVal.list (x :: rest)
        ∧ dictGet x "rows" = some rows ∧ dictGet x "headers" = some headers)
    ∧ ((¬ ∃ x rest rows headers, r = PyVal.list (x :: rest)
        ∧ dictGet x "rows" = some rows ∧ dictGet x "headers" = some headers) →
      (runScript rt q).2 = Option.none) := by
  rw [runScript_snd hc htx]
  constructor
  · intro hsome
    obtain ⟨s, hs⟩ := Option.isSome_iff_exists.mp hsome
    obtain ⟨elem, rows, headers, h0, h1, h2, _⟩ := consumeResult_eq_some hs
    obtain ⟨rest, hrest⟩ := listIndex_zero_eq_some.mp h0
    exact ⟨elem, rest, rows, headers, hrest, h1, h2⟩
  · intro hviol
    cases hres : consumeResult rt.tabulate r with
    | none => rfl
    | some s =>
      obtain ⟨elem, rows, headers, h0, h1, h2, _⟩ := consumeResult_eq_some hres
      obtain ⟨rest, hrest⟩ := listIndex_zero_eq_some.mp h0
      exact absurd ⟨elem, rest, rows, headers, hrest, h1, h2⟩ hviol

/-- Witness for C8 at a run whose engine returns an empty sequence, a
result violating the precondition: the run fails. -/
theorem c8_witness :
    (runScript emptyResultRuntime "select 1, 1 + 4").2 = Option.none :=
  (c8_unguarded_access emptyResultRuntime "select 1, 1 + 4"
      emptyResultEngine (PyVal.list []) rfl rfl).2 (by
    rintro ⟨x, rest, rows, headers, heq, -, -⟩
    simp at heq)

/-- C9: output is all-or-nothing: the `print` call is the last operation,
so every run either completes normally having written exactly its one
formatted table line, or fails with an uncaught error having written
nothing to standard output. -/
theorem c9_all_or_nothing (rt : Runtime) (q : String) :
    ((runScript rt q).2 = Option.none ∧ stdoutOf (runScript rt q).1 = [])
    ∨ (∃ s, (runScript rt q).2 = some s
        ∧ stdoutOf (runScript rt q).1 = [s]) := by
  rw [stdoutOf_runScript]
  cases hres : (runScript rt q).2 with
  | none => exact Or.inl ⟨rfl, rfl⟩
  | some s => exact Or.inr ⟨s, rfl, rfl⟩

/-- C10: the printed output is a function of exactly the first result
element's `rows` and `headers` fields: two runs whose engine results
have first elements agreeing on those two fields produce identical
standard output, whatever other elements or entries the results carry. -/
theorem c10_output_depends_only_on_fields (rt1 rt2 : Runtime) (q : String)
    (db1 db2 : Engine) (r1 r2 e1 e2 : PyVal)
    (hc1 : rt1.mkEmbedded [] = some db1) (hc2 : rt2.mkEmbedded [] = some db2)
    (htx1 : db1.tx q = some r1) (htx2 : db2.tx q = some r2)
    (h1 : listIndex r1 0 = some e1) (h2 : listIndex r2 0 = some e2)
    (hrows : dictGet e1 "rows" = dictGet e2 "rows")
    (hhead : dictGet e1 "headers" = dictGet e2 "headers")
    (htab : rt1.tabulate = rt2.tabulate) :
    stdoutOf (runScript rt1 q).1 = stdoutOf (runScript rt2 q).1
    ∧ (runScript rt1 q).2 = (runScript rt2 q).2 := by
  have hsnd : (runScript rt1 q).2 = (runScript rt2 q).2 := by
    rw [runScript_snd hc1 htx1, runScript_snd hc2 htx2, htab]
    exact consumeResult_congr rt2.tabulate h1 h2 hrows hhead
  exact ⟨by rw [stdoutOf_runScript, stdoutOf_runScript, hsnd], hsnd⟩

/-- Witness for C10: a plain result versus one with an extra response
element and an extra first-element entry give identical output. -/
theorem c10_witness :
    stdoutOf (runScript sampleRuntime "select 1, 1 + 4").1 =
      stdoutOf (runScript sampleRuntimeExtra "select 1, 1 + 4").1
    ∧ (runScript sampleRuntime "select 1, 1 + 4").2 =
      (runScript sampleRuntimeExtra "select 1, 1 + 4").2 :=
  c10_output_depends_only_on_fields sampleRuntime sampleRuntimeExtra
    "select 1, 1 + 4" sampleEngine sampleEngineExtra
    sampleResult sampleResultExtra sampleElem sampleElemExtra
    rfl rfl rfl rfl rfl rfl rfl rfl rfl

/-- C6: runs hold no hidden state: two runs of a script against engines
that construct with the same success and answer the script's query with
equal results, under the same formatter, produce byte-identical
standard output (indeed identical traces and outcomes). -/
theorem c6_deterministic (rt1 rt2 : Runtime) (q : String)
    (hcons : (rt1.mkEmbedded []).isSome = (rt2.mkEmbedded []).isSome)
    (htx : ∀ db1 db2, rt1.mkEmbedded [] = some db1 →
      rt2.mkEmbedded [] = some db2 → db1.tx q = db2.tx q)
    (htab : rt1.tabulate = rt2.tabulate) :
    stdoutOf (runScript rt1 q).1 = stdoutOf (runScript rt2 q).1
    ∧ runScript rt1 q = runScript rt2 q := by
  have hrun : runScript rt1 q = runScript rt2 q := by
    cases h1 : rt1.mkEmbedded [] with
    | none =>
      cases h2 : rt2.mkEmbedded [] with
      | none => simp [runScript, h1, h2]
      | some db2 => rw [h1, h2] at hcons; simp at hcons
    | some db1 =>
      cases h2 : rt2.mkEmbedded [] with
      | none => rw [h1, h2] at hcons; simp at hcons
      | some db2 =>
        have he := htx db1 db2 h1 h2
        cases h3 : db1.tx q with
        | none =>
          have h4 : db2.tx q = Option.none := he.symm.trans h3
          simp [runScript, h1, h2, h3, h4]
        | some r =>
          have h4 : db2.tx q = some r := he.symm.trans h3
          simp [runScript, h1, h2, h3, h4, htab]
  exact ⟨by rw [hrun], hrun⟩

/-- Witness for C6: two separately built but behaviourally equal run
environments give identical runs. -/
theorem c6_witness :
    stdoutOf (runScript sampleRuntime "map 1, 1 + 4").1 =
      stdoutOf (runScript sampleRuntimeB "map 1, 1 + 4").1
    ∧ runScript sampleRuntime "map 1, 1 + 4" =
      runScript sampleRuntimeB "map 1, 1 + 4" :=
  c6_deterministic sampleRuntime sampleRuntimeB "map 1, 1 + 4" rfl
    (fun db1 db2 h1 h2 => by
      have e1 : some sampleEngine = some db1 := h1
      have e2 : some sampleEngineB = some db2 := h2
      injection e1 with e1'
      injection e2 with e2'
      subst e1'
      subst e2'
      rfl)
    rfl

/-- C1: when the engine answers the script's query with a result whose
first element holds a single row of cells and the header labels, the
script completes having printed exactly the formatted table, and that
table contains every header label and every computed cell value. -/
theorem c1_renders_table (rt : Runtime) (q : String) (db : Engine)
    (r elem : PyVal) (cells hvs : List PyVal)
    (htab : rt.tabulate = tabulateModel)
    (hc : rt.mkEmbedded [] = some db)
    (htx : db.tx q = some r)
    (h0 : listIndex r 0 = some elem)
    (hrows : dictGet elem "rows" = some (PyVal.list [PyVal.list cells]))
    (hhead : dictGet elem "headers" = some (PyVal.list hvs)) :
    (runScript rt q).2 = some (mkTable cells hvs)
    ∧ stdoutOf (runScript rt q).1 = [mkTable cells hvs]
    ∧ (∀ h ∈ hvs, containsStr (renderCell h) (mkTable cells hvs))
    ∧ (∀ c ∈ cells, containsStr (renderCell c) (mkTable cells hvs)) := by
  have hcons : consumeResult rt.tabulate r = some (mkTable cells hvs) := by
    simp only [consumeResult, h0, hrows, hhead, htab, tabulateModel,
      renderRows, renderRow, mkTable]
  have hout : (runScript rt q).2 = some (mkTable cells hvs) :=
    (runScript_snd hc htx).trans hcons
  refine ⟨hout, ?_, ?_, ?_⟩
  · rw [stdoutOf_runScript, hout]
    rfl
  · intro h hmem
    have hin : containsStr (renderCell h)
        (joinSep "  " (hvs.map renderCell)) :=
      containsStr_joinSep "  " (List.mem_map_of_mem renderCell hmem)
    have hline : containsStr (joinSep "  " (hvs.map renderCell))
        (mkTable cells hvs) :=
      containsStr_joinSep "\n" (by simp [List.mem_cons])
    exact containsStr_trans hin hline
  · intro c hmem
    have hin : containsStr (renderCell c)
        (joinSep "  " (cells.map renderCell)) :=
      containsStr_joinSep "  " (List.mem_map_of_mem renderCell hmem)
    have hline : containsStr (joinSep "  " (cells.map renderCell))
        (mkTable cells hvs) :=
      containsStr_joinSep "\n" (by simp [List.mem_cons])
    exact containsStr_trans hin hline

/-- Witness for C1 at the example's own data: one row `(1, 5)` under
the headers `1` and `1 + 4`. -/
theorem c1_witness :
    (runScript sampleRuntime "select 1, 1 + 4").2 =
      some (mkTable sampleRowCells sampleHeaderVals)
    ∧ stdoutOf (runScript sampleRuntime "select 1, 1 + 4").1 =
      [mkTable sampleRowCells sampleHeaderVals]
    ∧ (∀ h ∈ sampleHeaderVals,
        containsStr (renderCell h) (mkTable sampleRowCells sampleHeaderVals))
    ∧ (∀ c ∈ sampleRowCells,
        containsStr (renderCell c) (mkTable sampleRowCells sampleHeaderVals)) :=
  c1_renders_table sampleRuntime "select 1, 1 + 4" sampleEngine
    sampleResult sampleElem sampleRowCells sampleHeaderVals
    rfl rfl rfl rfl rfl rfl

/-- Forget the query argument of a `tx` event, keeping every event's
kind and any other payload. -/
def eventShape : Event → Event
  | Event.txCall _ => Event.txCall ""
  | e => e

/-- C7 counterexample: the supplied source holds two copies of the
example script, not three, and they are 7 and 10 source lines long,
not twenty (the longer copy adds a licence header). -/
theorem c7_counterexample :
    ¬ suppliedScripts.length = 3
    ∧ suppliedScripts.length = 2
    ∧ examplesScript.numLines = 7
    ∧ reifydbScript.numLines = 10 :=
  ⟨by decide, rfl, rfl, rfl⟩

/-- C7 as amended: the supplied source consists of two near-identical
copies of the short example script whose queries differ only in the
leading keyword (`select` versus `map`) over the same literal
arguments, so that against any engine treating the two queries alike,
both copies perform the same sequence of operations and produce the
same outcome. -/
theorem c7_two_copies_equivalent (rt : Runtime)
    (htx : ∀ db, rt.mkEmbedded [] = some db →
      db.tx examplesScript.query = db.tx reifydbScript.query) :
    suppliedScripts.length = 2
    ∧ examplesScript.query = "select " ++ commonQueryArgs
    ∧ reifydbScript.query = "map " ++ commonQueryArgs
    ∧ (runScript rt examplesScript.query).1.map eventShape =
      (runScript rt reifydbScript.query).1.map eventShape
    ∧ (runScript rt examplesScript.query).2 =
      (runScript rt reifydbScript.query).2 := by
  refine ⟨rfl, rfl, rfl, ?_⟩
  cases hdb : rt.mkEmbedded [] with
  | none => simp [runScript, hdb]
  | some db =>
    have he := htx db hdb
    cases h1 : db.tx examplesScript.query with
    | none =>
      have h2 : db.tx reifydbScript.query = Option.none := he.symm.trans h1
      simp [runScript, hdb, h1, h2, eventShape]
    | some r =>
      have h2 : db.tx reifydbScript.query = some r := he.symm.trans h1
      cases hres : consumeResult rt.tabulate r with
      | none => simp [runScript, hdb, h1, h2, hres, eventShape]
      | some s => simp [runScript, hdb, h1, h2, hres, eventShape]

/-- Witness for C7's amended statement at a concrete engine answering
both queries alike. -/
theorem c7_witness :
    suppliedScripts.length = 2
    ∧ examplesScript.query = "select " ++ commonQueryArgs
    ∧ reifydbScript.query = "map " ++ commonQueryArgs
    ∧ (runScript sampleRuntime examplesScript.query).1.map eventShape =
      (runScript sampleRuntime reifydbScript.query).1.map eventShape
    ∧ (runScript sampleRuntime examplesScript.query).2 =
      (runScript sampleRuntime reifydbScript.query).2 :=
  c7_two_copies_equivalent sampleRuntime (fun db hdb => by
    have e : some sampleEngine = some db := hdb
    injection e with e'
    subst e'
    rfl)
